import Mathlib

/-!
Verification development for a C++ dense-matrix multiplication program
(`src/main.cpp`).  The program defines a `Matrix<T>` class backed by a
`std::vector<std::vector<T>>` together with three multiplication strategies:

* `multiply_serial`   - triple nested loop (row, column, contraction);
* `multiply_async`    - one task per output row, each running the inner
  column/contraction loops, joined before returning;
* `multiply_thread_pool` - rows statically partitioned into
  `num_threads` contiguous chunks (`chunk_size = rows / num_threads`,
  `remainder = rows % num_threads`, the first `remainder` chunks one row
  larger), one worker per chunk, joined before returning.

The embedding below is a shallow one: the mutable 2D grid becomes a
function `Nat -> Nat -> α` updated pointwise, each loop becomes a left
fold over the corresponding index range, concurrent tasks (which write
pairwise disjoint output rows and are all joined before the result is
returned) are sequentialised in launch order, and the environment input
`std::thread::hardware_concurrency()` becomes an explicit `num_threads`
parameter.  A `throw std::invalid_argument` becomes an `Except.error`.
Elements are taken in an arbitrary commutative ring, which covers the
exact content of the arithmetic claims.
-/

set_option linter.unusedSectionVars false
set_option linter.unusedVariables false
set_option linter.unnecessarySeqFocus false

namespace MatMul

/-- Shallow embedding of the C++ `Matrix<T>`: fixed row and column counts
and a backing store read at `(i, j)`. -/
structure Matrix (α : Type) where
  rows : Nat
  cols : Nat
  data : Nat → Nat → α

variable {α : Type} [CommRing α]

/-- Embedding of the constructor `Matrix(size_t r, size_t c)`: an `r` by `c`
matrix, every element zero-initialised. -/
def Matrix.ofDims (r c : Nat) : Matrix α :=
  ⟨r, c, fun _ _ => 0⟩

/-- Element read `data[i][j]`. -/
def Matrix.get (m : Matrix α) (i j : Nat) : α :=
  m.data i j

/-- Element write `data[i][j] = v`, as a pointwise functional update of the
backing store. -/
def Matrix.set (m : Matrix α) (i j : Nat) (v : α) : Matrix α :=
  { m with data := fun i' j' => if i' = i ∧ j' = j then v else m.data i' j' }

/-- Mathematical value of one output element: the contraction
`Σ_{k < A.cols} A[i][k] * B[k][j]`. -/
def entry (A B : Matrix α) (i j : Nat) : α :=
  ∑ k in Finset.range A.cols, A.get i k * B.get k j

/-- Innermost loop `for k in [0, cols): result[i][j] += A[i][k] * B[k][j]`,
shared verbatim by all three multipliers in the source. -/
def kLoop (A B : Matrix α) (res : Matrix α) (i j : Nat) : Matrix α :=
  (List.range A.cols).foldl
    (fun r k => r.set i j (r.get i j + A.get i k * B.get k j)) res

/-- Column loop over `j in [0, n)` around `kLoop`, with the bound exposed as
a parameter for induction. -/
def rowLoopAux (A B : Matrix α) (res : Matrix α) (i n : Nat) : Matrix α :=
  (List.range n).foldl (fun r j => kLoop A B r i j) res

/-- Column loop `for j in [0, other.cols)`: computes output row `i`.  This is
the body of one async task and one iteration of the serial outer loop. -/
def rowLoop (A B : Matrix α) (res : Matrix α) (i : Nat) : Matrix α :=
  rowLoopAux A B res i B.cols

/-- Outer row loop over `i in [0, n)` around `rowLoop`, bound exposed for
induction. -/
def rowsAux (A B : Matrix α) (res : Matrix α) (n : Nat) : Matrix α :=
  (List.range n).foldl (fun r i => rowLoop A B r i) res

/-- Loop body of `Matrix::multiply_serial` after the dimension check: triple
nested loops over rows, then columns, then the contraction index, starting
from the zero-filled `result(rows, other.cols)`. -/
def serialCompute (A B : Matrix α) : Matrix α :=
  rowsAux A B (Matrix.ofDims A.rows B.cols) A.rows

/-- Embedding of `Matrix::multiply_serial`: dimension check then the triple
loop. -/
def multiply_serial (A B : Matrix α) : Except String (Matrix α) :=
  if A.cols ≠ B.rows then
    Except.error "Matrix dimensions incompatible for multiplication"
  else
    Except.ok (serialCompute A B)

/-- Loop body of `Matrix::multiply_async` after the dimension check: one
task per row `i in [0, rows)`, each task running the column/contraction
loops for its row; tasks write pairwise disjoint rows and are all joined
before the result is read, so they are sequentialised in launch order. -/
def asyncCompute (A B : Matrix α) : Matrix α :=
  (List.range A.rows).foldl (fun r i => rowLoop A B r i)
    (Matrix.ofDims A.rows B.cols)

/-- Embedding of `Matrix::multiply_async`. -/
def multiply_async (A B : Matrix α) : Except String (Matrix α) :=
  if A.cols ≠ B.rows then
    Except.error "Matrix dimensions incompatible for multiplication"
  else
    Except.ok (asyncCompute A B)

/-- Body of one thread-pool worker: rows `i in [start, start + c)`, each
processed by the column/contraction loops. -/
def threadWork (A B : Matrix α) (res : Matrix α) (start c : Nat) : Matrix α :=
  (List.range' start c).foldl (fun r i => rowLoop A B r i) res

/-- Loop body of `Matrix::multiply_thread_pool` after the dimension check:
`chunk_size = rows / num_threads`, `remainder = rows % num_threads`; worker
`t` receives `chunk_size + (t < remainder ? 1 : 0)` rows starting at the
running `start`; workers write pairwise disjoint row ranges and are all
joined, so they are sequentialised in launch order.  The state of the fold
is the pair (result so far, next start row). -/
def threadPoolCompute (A B : Matrix α) (num_threads : Nat) : Matrix α :=
  let chunk_size := A.rows / num_threads
  let remainder := A.rows % num_threads
  ((List.range num_threads).foldl
    (fun (st : Matrix α × Nat) t =>
      let thread_rows := chunk_size + (if t < remainder then 1 else 0)
      (threadWork A B st.1 st.2 thread_rows, st.2 + thread_rows))
    (Matrix.ofDims A.rows B.cols, 0)).1

/-- Embedding of `Matrix::multiply_thread_pool`.  The environment value
`std::thread::hardware_concurrency()` is the explicit parameter
`num_threads`; the source applies no adjustment to it before dividing. -/
def multiply_thread_pool (A B : Matrix α) (num_threads : Nat) :
    Except String (Matrix α) :=
  if A.cols ≠ B.rows then
    Except.error "Matrix dimensions incompatible for multiplication"
  else
    Except.ok (threadPoolCompute A B num_threads)

/-- Number of rows worker `t` receives:
`chunk_size + (t < remainder ? 1 : 0)` with `chunk_size = R / P` and
`remainder = R % P` (source line 109). -/
def threadRows (R P t : Nat) : Nat :=
  R / P + (if t < R % P then 1 else 0)

/-- First row of worker `t`: the running `start` accumulated by
`start += thread_rows` over the earlier workers (source lines 106 and 121). -/
def threadStart (R P t : Nat) : Nat :=
  (List.range t).foldl (fun s u => s + threadRows R P u) 0

/-- The K-by-K identity matrix, the input named by the identity-check
property of the specification. -/
def identity (n : Nat) : Matrix α :=
  ⟨n, n, fun i j => if i = j then 1 else 0⟩

/-- State visible to a multiplication call: the two operands (the receiver
object and the `other` argument, both taken by `const` reference in the
source) together with the freshly constructed `result` matrix.  Used to make
the writes of each multiplier explicit for the frame property. -/
structure MState (α : Type) where
  A : Matrix α
  B : Matrix α
  result : Matrix α

/-- Contraction loop on the full state: every write of the loop body
`result.data[i][j] += data[i][k] * other.data[k][j]` goes to the `result`
component, while `A` and `B` are only read. -/
def kLoopS (s : MState α) (i j : Nat) : MState α :=
  (List.range s.A.cols).foldl
    (fun t k =>
      { t with
        result := t.result.set i j (t.result.get i j + t.A.get i k * t.B.get k j) }) s

/-- Column loop on the full state. -/
def rowLoopS (s : MState α) (i : Nat) : MState α :=
  (List.range s.B.cols).foldl (fun t j => kLoopS t i j) s

/-- State-level run of the `multiply_serial` loop nest, starting from the
operands and the zero-filled result. -/
def serialRunS (A B : Matrix α) : MState α :=
  (List.range A.rows).foldl (fun t i => rowLoopS t i)
    ⟨A, B, Matrix.ofDims A.rows B.cols⟩

/-- State-level embedding of `Matrix::multiply_serial`. -/
def multiply_serialS (A B : Matrix α) : Except String (MState α) :=
  if A.cols ≠ B.rows then
    Except.error "Matrix dimensions incompatible for multiplication"
  else
    Except.ok (serialRunS A B)

/-- State-level run of the `multiply_async` loop nest (one task per row,
sequentialised in launch order). -/
def asyncRunS (A B : Matrix α) : MState α :=
  (List.range A.rows).foldl (fun t i => rowLoopS t i)
    ⟨A, B, Matrix.ofDims A.rows B.cols⟩

/-- State-level embedding of `Matrix::multiply_async`. -/
def multiply_asyncS (A B : Matrix α) : Except String (MState α) :=
  if A.cols ≠ B.rows then
    Except.error "Matrix dimensions incompatible for multiplication"
  else
    Except.ok (asyncRunS A B)

/-- State-level body of one thread-pool worker. -/
def threadWorkS (s : MState α) (start c : Nat) : MState α :=
  (List.range' start c).foldl (fun t i => rowLoopS t i) s

/-- State-level run of the `multiply_thread_pool` loop nest. -/
def threadPoolRunS (A B : Matrix α) (num_threads : Nat) : MState α :=
  let chunk_size := A.rows / num_threads
  let remainder := A.rows % num_threads
  ((List.range num_threads).foldl
    (fun (st : MState α × Nat) t =>
      let thread_rows := chunk_size + (if t < remainder then 1 else 0)
      (threadWorkS st.1 st.2 thread_rows, st.2 + thread_rows))
    (⟨A, B, Matrix.ofDims A.rows B.cols⟩, 0)).1

/-- State-level embedding of `Matrix::multiply_thread_pool`. -/
def multiply_thread_poolS (A B : Matrix α) (num_threads : Nat) :
    Except String (MState α) :=
  if A.cols ≠ B.rows then
    Except.error "Matrix dimensions incompatible for multiplication"
  else
    Except.ok (threadPoolRunS A B num_threads)

/-- Concrete 2-by-2 operand `[[1,2],[3,4]]` from the specification's
concrete scenario. -/
def wA : Matrix Int :=
  ⟨2, 2, fun i j =>
    if i = 0 then (if j = 0 then 1 else 2) else (if j = 0 then 3 else 4)⟩

/-- Concrete 2-by-2 operand `[[5,6],[7,8]]` from the specification's
concrete scenario. -/
def wB : Matrix Int :=
  ⟨2, 2, fun i j =>
    if i = 0 then (if j = 0 then 5 else 6) else (if j = 0 then 7 else 8)⟩

/-- Concrete 1-by-1 matrix `[[1]]`. -/
def wOne : Matrix Int :=
  ⟨1, 1, fun _ _ => 1⟩

/-- Concrete 2-by-0 matrix for the zero-size test. -/
def wTwoZero : Matrix Int :=
  Matrix.ofDims 2 0

/-- Concrete 0-by-3 matrix for the zero-size test. -/
def wZeroThree : Matrix Int :=
  Matrix.ofDims 0 3

/-- Concrete 1-by-1 matrix `[[2]]` whose backing store is `2` everywhere. -/
def wTwoA : Matrix Int :=
  ⟨1, 1, fun _ _ => 2⟩

/-- Concrete 1-by-1 matrix `[[2]]` whose backing store differs from `wTwoA`
outside the in-bounds region. -/
def wTwoB : Matrix Int :=
  ⟨1, 1, fun i j => if i = 0 ∧ j = 0 then 2 else 57⟩

/-! Helper lemmas about element reads and writes. -/

lemma Matrix.get_set (m : Matrix α) (i j : Nat) (v : α) (i' j' : Nat) :
    (m.set i j v).get i' j' = if i' = i ∧ j' = j then v else m.get i' j' :=
  rfl

lemma Matrix.rows_set (m : Matrix α) (i j : Nat) (v : α) :
    (m.set i j v).rows = m.rows :=
  rfl

lemma Matrix.cols_set (m : Matrix α) (i j : Nat) (v : α) :
    (m.set i j v).cols = m.cols :=
  rfl

lemma Matrix.set_set (m : Matrix α) (i j : Nat) (v w : α) :
    (m.set i j v).set i j w = m.set i j w := by
  show Matrix.mk _ _ _ = Matrix.mk _ _ _
  congr 1
  funext i' j'
  by_cases h : i' = i ∧ j' = j <;> simp [Matrix.set, h]

lemma Matrix.set_get_self (m : Matrix α) (i j : Nat) :
    m.set i j (m.get i j) = m := by
  cases m with
  | mk r c d =>
    show Matrix.mk _ _ _ = Matrix.mk _ _ _
    congr 1
    funext i' j'
    by_cases h : i' = i ∧ j' = j
    · simp [Matrix.set, Matrix.get, h.1, h.2]
    · simp [Matrix.set, Matrix.get, h]

lemma Matrix.ext_get {m₁ m₂ : Matrix α} (hr : m₁.rows = m₂.rows)
    (hc : m₁.cols = m₂.cols) (h : ∀ i j, m₁.get i j = m₂.get i j) :
    m₁ = m₂ := by
  cases m₁
  cases m₂
  simp only [Matrix.mk.injEq]
  refine ⟨hr, hc, ?_⟩
  funext i j
  exact h i j

/-- Accumulation loop writing repeatedly to a fixed cell `(i, j)`: it adds
the sum of the contributions to that cell and touches nothing else. -/
lemma foldl_set_add (i j : Nat) (f : Nat → α) :
    ∀ (l : List Nat) (res : Matrix α),
      l.foldl (fun r k => r.set i j (r.get i j + f k)) res
        = res.set i j (res.get i j + (l.map f).sum) := by
  intro l
  induction l with
  | nil =>
    intro res
    simp only [List.foldl_nil, List.map_nil, List.sum_nil, add_zero,
      Matrix.set_get_self]
  | cons a t ih =>
    intro res
    rw [List.foldl_cons, ih, Matrix.get_set, Matrix.set_set]
    simp only [List.map_cons, List.sum_cons, and_self, if_true, add_assoc]

lemma sum_map_range (f : Nat → α) :
    ∀ n : Nat, ((List.range n).map f).sum = ∑ k in Finset.range n, f k := by
  intro n
  induction n with
  | zero => simp
  | succ n ih =>
    rw [List.range_succ, List.map_append, List.sum_append,
      Finset.sum_range_succ, ih]
    simp

/-- The contraction loop sets cell `(i, j)` to its old value plus the
mathematical contraction, and leaves every other cell alone. -/
lemma kLoop_get (A B res : Matrix α) (i j i' j' : Nat) :
    (kLoop A B res i j).get i' j'
      = if i' = i ∧ j' = j then res.get i j + entry A B i j
        else res.get i' j' := by
  unfold kLoop
  rw [foldl_set_add, Matrix.get_set, sum_map_range]
  rfl

lemma foldl_rows {β : Type} (g : Matrix α → β → Matrix α)
    (hg : ∀ r x, (g r x).rows = r.rows) :
    ∀ (l : List β) (res : Matrix α), (l.foldl g res).rows = res.rows := by
  intro l
  induction l with
  | nil => intro res; rfl
  | cons a t ih => intro res; rw [List.foldl_cons, ih, hg]

lemma foldl_cols {β : Type} (g : Matrix α → β → Matrix α)
    (hg : ∀ r x, (g r x).cols = r.cols) :
    ∀ (l : List β) (res : Matrix α), (l.foldl g res).cols = res.cols := by
  intro l
  induction l with
  | nil => intro res; rfl
  | cons a t ih => intro res; rw [List.foldl_cons, ih, hg]

/-- The column loop at row `i` with bound `n` adds the contraction to each
cell `(i, j')` with `j' < n` and leaves every other cell alone. -/
lemma rowLoopAux_get (A B : Matrix α) (i : Nat) :
    ∀ (n : Nat) (res : Matrix α) (i' j' : Nat),
      (rowLoopAux A B res i n).get i' j'
        = if i' = i ∧ j' < n then res.get i' j' + entry A B i' j'
          else res.get i' j' := by
  intro n
  induction n with
  | zero =>
    intro res i' j'
    simp [rowLoopAux]
  | succ n ih =>
    intro res i' j'
    rw [rowLoopAux, List.range_succ, List.foldl_append, List.foldl_cons,
      List.foldl_nil]
    rw [show (List.range n).foldl (fun r j => kLoop A B r i j) res
        = rowLoopAux A B res i n from rfl]
    rw [kLoop_get, ih, ih]
    by_cases hi : i' = i
    · subst hi
      by_cases hj : j' = n
      · subst hj
        simp [lt_self_iff_false, Nat.lt_succ_self]
      · by_cases hjn : j' < n
        · simp [hj, hjn, Nat.lt_succ_of_lt hjn]
        · have h2 : ¬ j' < n + 1 := by omega
          simp [hj, hjn, h2]
    · simp [hi]

/-- The outer row loop with bound `n` adds the contraction to each in-range
cell `(i', j')` with `i' < n`, `j' < B.cols` and leaves the rest alone. -/
lemma rowsAux_get (A B : Matrix α) :
    ∀ (n : Nat) (res : Matrix α) (i' j' : Nat),
      (rowsAux A B res n).get i' j'
        = if i' < n ∧ j' < B.cols then res.get i' j' + entry A B i' j'
          else res.get i' j' := by
  intro n
  induction n with
  | zero =>
    intro res i' j'
    simp [rowsAux]
  | succ n ih =>
    intro res i' j'
    rw [rowsAux, List.range_succ, List.foldl_append, List.foldl_cons,
      List.foldl_nil]
    rw [show (List.range n).foldl (fun r i => rowLoop A B r i) res
        = rowsAux A B res n from rfl]
    rw [rowLoop, rowLoopAux_get, ih]
    by_cases hi : i' = n
    · subst hi
      by_cases hj : j' < B.cols
      · simp [hj, lt_self_iff_false, Nat.lt_succ_self]
      · simp [hj]
    · by_cases hin : i' < n
      · simp [hi, hin, Nat.lt_succ_of_lt hin]
      · have h2 : ¬ i' < n + 1 := by omega
        simp [hi, hin, h2]

/-- The serial loop nest computes exactly the mathematical contraction at
every in-range cell and zero elsewhere. -/
lemma serialCompute_get (A B : Matrix α) (i j : Nat) :
    (serialCompute A B).get i j
      = if i < A.rows ∧ j < B.cols then entry A B i j else 0 := by
  rw [serialCompute, rowsAux_get]
  by_cases h : i < A.rows ∧ j < B.cols <;>
    simp [h, Matrix.ofDims, Matrix.get]

lemma kLoop_rows (A B res : Matrix α) (i j : Nat) :
    (kLoop A B res i j).rows = res.rows := by
  unfold kLoop
  refine foldl_rows _ ?_ _ _
  intro r k
  rfl

lemma kLoop_cols (A B res : Matrix α) (i j : Nat) :
    (kLoop A B res i j).cols = res.cols := by
  unfold kLoop
  refine foldl_cols _ ?_ _ _
  intro r k
  rfl

lemma rowLoop_rows (A B res : Matrix α) (i : Nat) :
    (rowLoop A B res i).rows = res.rows := by
  unfold rowLoop rowLoopAux
  exact foldl_rows _ (fun r j => kLoop_rows A B r i j) _ _

lemma rowLoop_cols (A B res : Matrix α) (i : Nat) :
    (rowLoop A B res i).cols = res.cols := by
  unfold rowLoop rowLoopAux
  exact foldl_cols _ (fun r j => kLoop_cols A B r i j) _ _

lemma rowsAux_rows (A B res : Matrix α) (n : Nat) :
    (rowsAux A B res n).rows = res.rows := by
  unfold rowsAux
  exact foldl_rows _ (fun r i => rowLoop_rows A B r i) _ _

lemma rowsAux_cols (A B res : Matrix α) (n : Nat) :
    (rowsAux A B res n).cols = res.cols := by
  unfold rowsAux
  exact foldl_cols _ (fun r i => rowLoop_cols A B r i) _ _

/-- The serial result has the shape `A.rows` by `B.cols`. -/
lemma serialCompute_rows (A B : Matrix α) :
    (serialCompute A B).rows = A.rows := by
  rw [serialCompute, rowsAux_rows]
  rfl

lemma serialCompute_cols (A B : Matrix α) :
    (serialCompute A B).cols = B.cols := by
  rw [serialCompute, rowsAux_cols]
  rfl

/-- The tasks of `multiply_async` run, in launch order, exactly the row
loops of the serial algorithm. -/
lemma asyncCompute_eq (A B : Matrix α) :
    asyncCompute A B = serialCompute A B :=
  rfl

/-- One worker's row range, processed after the first `s` rows, extends the
serial row loop from `s` to `s + c` rows. -/
lemma threadWork_rowsAux (A B res : Matrix α) (s c : Nat) :
    threadWork A B (rowsAux A B res s) s c = rowsAux A B res (s + c) := by
  rw [threadWork, List.range'_eq_map_range, List.foldl_map, rowsAux, rowsAux,
    List.range_add, List.foldl_append, List.foldl_map]

lemma threadStart_zero (R P : Nat) : threadStart R P 0 = 0 :=
  rfl

lemma threadStart_succ (R P t : Nat) :
    threadStart R P (t + 1) = threadStart R P t + threadRows R P t := by
  rw [threadStart, threadStart, List.range_succ, List.foldl_append,
    List.foldl_cons, List.foldl_nil]

lemma threadStart_eq_sum (R P : Nat) :
    ∀ t, threadStart R P t = ∑ u in Finset.range t, threadRows R P u := by
  intro t
  induction t with
  | zero => rfl
  | succ t ih => rw [threadStart_succ, Finset.sum_range_succ, ih]

lemma sum_ite_lt (m : Nat) :
    ∀ n : Nat, (∑ t in Finset.range n, if t < m then 1 else 0) = min n m := by
  intro n
  induction n with
  | zero => simp
  | succ n ih =>
    rw [Finset.sum_range_succ, ih]
    by_cases h : n < m
    · rw [if_pos h]
      omega
    · rw [if_neg h]
      omega

lemma sum_ite_ge (m : Nat) :
    ∀ n : Nat, (∑ t in Finset.range n, if m ≤ t then 1 else 0) = n - min n m := by
  intro n
  induction n with
  | zero => simp
  | succ n ih =>
    rw [Finset.sum_range_succ, ih]
    by_cases h : m ≤ n
    · rw [if_pos h]
      omega
    · rw [if_neg h]
      omega

/-- The partition sizes add up to exactly `R` rows. -/
lemma threadStart_total (R P : Nat) (hP : 1 ≤ P) : threadStart R P P = R := by
  rw [threadStart_eq_sum]
  rw [Finset.sum_congr rfl
    (fun u _ => show threadRows R P u = R / P + (if u < R % P then 1 else 0) from rfl)]
  rw [Finset.sum_add_distrib, Finset.sum_const, Finset.card_range, sum_ite_lt,
    smul_eq_mul]
  have hlt : R % P < P := Nat.mod_lt _ hP
  have hmin : min P (R % P) = R % P := by omega
  rw [hmin]
  exact Nat.div_add_mod R P

lemma threadStart_mono (R P : Nat) {t u : Nat} (h : t ≤ u) :
    threadStart R P t ≤ threadStart R P u := by
  rw [threadStart_eq_sum, threadStart_eq_sum]
  exact Finset.sum_le_sum_of_subset (Finset.range_subset.mpr h)

/-- Every row below the running start of worker `t` lies in the range of
some earlier worker: the ranges are contiguous and gap-free. -/
lemma threadCover_aux (R P : Nat) :
    ∀ t r, r < threadStart R P t →
      ∃ u, u < t ∧ threadStart R P u ≤ r ∧
        r < threadStart R P u + threadRows R P u := by
  intro t
  induction t with
  | zero =>
    intro r hr
    rw [threadStart_zero] at hr
    omega
  | succ t ih =>
    intro r hr
    rw [threadStart_succ] at hr
    by_cases h : r < threadStart R P t
    · obtain ⟨u, hu, h1, h2⟩ := ih r h
      exact ⟨u, Nat.lt_succ_of_lt hu, h1, h2⟩
    · exact ⟨t, Nat.lt_succ_self t, by omega, by omega⟩

/-- Invariant of the worker-launching loop: after launching `t` workers the
computed prefix is exactly the first `threadStart R P t` rows and the
running start equals `threadStart R P t`. -/
lemma threadPool_fold (A B : Matrix α) (P : Nat) :
    ∀ t, (List.range t).foldl
        (fun (st : Matrix α × Nat) u =>
          (threadWork A B st.1 st.2
            (A.rows / P + (if u < A.rows % P then 1 else 0)),
           st.2 + (A.rows / P + (if u < A.rows % P then 1 else 0))))
        (Matrix.ofDims A.rows B.cols, 0)
      = (rowsAux A B (Matrix.ofDims A.rows B.cols) (threadStart A.rows P t),
         threadStart A.rows P t) := by
  intro t
  induction t with
  | zero => rfl
  | succ t ih =>
    rw [List.range_succ, List.foldl_append, ih, List.foldl_cons, List.foldl_nil]
    show (threadWork A B
        (rowsAux A B (Matrix.ofDims A.rows B.cols) (threadStart A.rows P t))
        (threadStart A.rows P t) (threadRows A.rows P t),
      threadStart A.rows P t + threadRows A.rows P t) = _
    rw [threadWork_rowsAux, threadStart_succ]

/-- For any positive worker count the thread-pool loop nest computes the
same matrix as the serial loop nest. -/
lemma threadPoolCompute_eq (A B : Matrix α) (P : Nat) (hP : 1 ≤ P) :
    threadPoolCompute A B P = serialCompute A B := by
  have h2 : threadPoolCompute A B P
      = ((List.range P).foldl
          (fun (st : Matrix α × Nat) u =>
            (threadWork A B st.1 st.2
              (A.rows / P + (if u < A.rows % P then 1 else 0)),
             st.2 + (A.rows / P + (if u < A.rows % P then 1 else 0))))
          (Matrix.ofDims A.rows B.cols, 0)).1 := rfl
  rw [h2, threadPool_fold A B P P, threadStart_total _ _ hP]
  rfl

/-- A fold whose step only rewrites the `result` component leaves the
operand components untouched. -/
lemma foldl_MState_ops {β : Type} (g : MState α → β → MState α)
    (hg : ∀ t x, (g t x).A = t.A ∧ (g t x).B = t.B) :
    ∀ (l : List β) (s : MState α),
      (l.foldl g s).A = s.A ∧ (l.foldl g s).B = s.B := by
  intro l
  induction l with
  | nil => intro s; exact ⟨rfl, rfl⟩
  | cons a t ih =>
    intro s
    rw [List.foldl_cons]
    obtain ⟨h1, h2⟩ := ih (g s a)
    obtain ⟨h3, h4⟩ := hg s a
    exact ⟨h1.trans h3, h2.trans h4⟩

lemma kLoopS_ops (s : MState α) (i j : Nat) :
    (kLoopS s i j).A = s.A ∧ (kLoopS s i j).B = s.B := by
  unfold kLoopS
  refine foldl_MState_ops _ ?_ _ _
  intro t k
  exact ⟨rfl, rfl⟩

lemma rowLoopS_ops (s : MState α) (i : Nat) :
    (rowLoopS s i).A = s.A ∧ (rowLoopS s i).B = s.B := by
  unfold rowLoopS
  refine foldl_MState_ops _ ?_ _ _
  intro t j
  exact kLoopS_ops t i j

lemma serialRunS_ops (A B : Matrix α) :
    (serialRunS A B).A = A ∧ (serialRunS A B).B = B := by
  unfold serialRunS
  refine foldl_MState_ops _ ?_ _ _
  intro t i
  exact rowLoopS_ops t i

lemma asyncRunS_ops (A B : Matrix α) :
    (asyncRunS A B).A = A ∧ (asyncRunS A B).B = B := by
  unfold asyncRunS
  refine foldl_MState_ops _ ?_ _ _
  intro t i
  exact rowLoopS_ops t i

lemma threadWorkS_ops (s : MState α) (start c : Nat) :
    (threadWorkS s start c).A = s.A ∧ (threadWorkS s start c).B = s.B := by
  unfold threadWorkS
  refine foldl_MState_ops _ ?_ _ _
  intro t i
  exact rowLoopS_ops t i

lemma foldl_pair_MState_ops {β : Type} (g : MState α × Nat → β → MState α × Nat)
    (hg : ∀ st x, ((g st x).1).A = (st.1).A ∧ ((g st x).1).B = (st.1).B) :
    ∀ (l : List β) (st : MState α × Nat),
      ((l.foldl g st).1).A = (st.1).A ∧ ((l.foldl g st).1).B = (st.1).B := by
  intro l
  induction l with
  | nil => intro st; exact ⟨rfl, rfl⟩
  | cons a t ih =>
    intro st
    rw [List.foldl_cons]
    obtain ⟨h1, h2⟩ := ih (g st a)
    obtain ⟨h3, h4⟩ := hg st a
    exact ⟨h1.trans h3, h2.trans h4⟩

lemma threadPoolRunS_ops (A B : Matrix α) (P : Nat) :
    (threadPoolRunS A B P).A = A ∧ (threadPoolRunS A B P).B = B := by
  unfold threadPoolRunS
  refine foldl_pair_MState_ops _ ?_ _ _
  intro st x
  exact threadWorkS_ops st.1 st.2 _

/-- When the dimension precondition holds, the serial multiplier takes the
non-error branch. -/
lemma multiply_serial_ok (A B : Matrix α) (h : A.cols = B.rows) :
    multiply_serial A B = Except.ok (serialCompute A B) := by
  rw [multiply_serial, if_neg]
  simp [h]

/-- When the contraction dimension is empty the contraction sum is zero. -/
lemma entry_of_cols_zero (A B : Matrix α) (hA : A.cols = 0) (i j : Nat) :
    entry A B i j = 0 := by
  rw [entry, hA]
  simp

/-! Claim theorems. -/

/-- Claim C1: for every pair of matrices A (R by K) and B (K by C) with
`A.cols = B.rows`, `multiply_serial` returns a new matrix of shape R by C
whose element (i, j) equals the sum over k below K of `A[i][k] * B[k][j]`,
computed by the row-major, then-column, then-contraction loop nest embedded
in `serialCompute`. -/
theorem serial_multiplication_correct (A B : Matrix α) (h : A.cols = B.rows) :
    multiply_serial A B = Except.ok (serialCompute A B) ∧
    (serialCompute A B).rows = A.rows ∧
    (serialCompute A B).cols = B.cols ∧
    ∀ i j, i < A.rows → j < B.cols →
      (serialCompute A B).get i j
        = ∑ k in Finset.range A.cols, A.get i k * B.get k j := by
  refine ⟨multiply_serial_ok A B h, serialCompute_rows A B,
    serialCompute_cols A B, ?_⟩
  intro i j hi hj
  rw [serialCompute_get, if_pos ⟨hi, hj⟩]
  rfl

/-- Witness for C1 at the specification's concrete scenario
`[[1,2],[3,4]] * [[5,6],[7,8]]`. -/
theorem serial_multiplication_correct_witness :
    multiply_serial wA wB = Except.ok (serialCompute wA wB) ∧
    (serialCompute wA wB).get 0 0
      = ∑ k in Finset.range wA.cols, wA.get 0 k * wB.get k 0 ∧
    (serialCompute wA wB).get 0 0 = 19 := by
  refine ⟨(serial_multiplication_correct wA wB rfl).1, ?_, by decide⟩
  exact (serial_multiplication_correct wA wB rfl).2.2.2 0 0 (by decide) (by decide)

/-- Claim C2: for matrices satisfying the dimension precondition (and any
positive worker count), the serial, task-based and thread-pool multipliers
return element-wise equal results; in this exact-arithmetic embedding they
are equal outright, all three computing the same contraction sums. -/
theorem multipliers_agree (A B : Matrix α) (P : Nat)
    (h : A.cols = B.rows) (hP : 1 ≤ P) :
    multiply_async A B = multiply_serial A B ∧
    multiply_thread_pool A B P = multiply_serial A B := by
  constructor
  · rfl
  · rw [multiply_thread_pool, multiply_serial, threadPoolCompute_eq A B P hP]

/-- Witness for C2 on the concrete scenario matrices with two workers. -/
theorem multipliers_agree_witness :
    multiply_async wA wB = multiply_serial wA wB ∧
    multiply_thread_pool wA wB 2 = multiply_serial wA wB :=
  multipliers_agree wA wB 2 rfl (by decide)

/-- Claim C4: whenever `A.cols` differs from `B.rows`, each of the three
multipliers signals the dimension-mismatch error; no result value is
produced, so no element of any result is written. -/
theorem dimension_mismatch_rejected (A B : Matrix α) (P : Nat)
    (h : A.cols ≠ B.rows) :
    multiply_serial A B
      = Except.error "Matrix dimensions incompatible for multiplication" ∧
    multiply_async A B
      = Except.error "Matrix dimensions incompatible for multiplication" ∧
    multiply_thread_pool A B P
      = Except.error "Matrix dimensions incompatible for multiplication" := by
  refine ⟨?_, ?_, ?_⟩ <;>
    simp [multiply_serial, multiply_async, multiply_thread_pool, h]

/-- Witness for C4: a 2-by-2 matrix cannot be multiplied by a 1-by-1 one. -/
theorem dimension_mismatch_rejected_witness :
    multiply_serial wA wOne
      = Except.error "Matrix dimensions incompatible for multiplication" ∧
    multiply_async wA wOne
      = Except.error "Matrix dimensions incompatible for multiplication" ∧
    multiply_thread_pool wA wOne 4
      = Except.error "Matrix dimensions incompatible for multiplication" :=
  dimension_mismatch_rejected wA wOne 4 (by decide)

/-- Claim C3: for every R and every P at least 1, the partitioning scheme
(`chunk = R / P`, `remainder = R % P`, worker `t` getting
`chunk + (t < remainder ? 1 : 0)` rows from the running start) produces
exactly P contiguous ranges: the starts begin at 0, each range ends where
the next begins, together they cover `[0, R)` exactly, earlier ranges lie
strictly below later ones, sizes differ by at most 1, and the first
`R mod P` ranges are the larger ones. -/
theorem partition_scheme_correct (R P : Nat) (hP : 1 ≤ P) :
    threadStart R P 0 = 0 ∧
    (∀ t, threadStart R P (t + 1) = threadStart R P t + threadRows R P t) ∧
    threadStart R P P = R ∧
    (∀ r, r < R ↔ ∃ t, t < P ∧ threadStart R P t ≤ r ∧
        r < threadStart R P t + threadRows R P t) ∧
    (∀ t u, t < u → u < P →
        threadStart R P t + threadRows R P t ≤ threadStart R P u) ∧
    (∀ t, t < P → ∀ u, u < P → threadRows R P t ≤ threadRows R P u + 1) ∧
    (∀ t, t < P → (t < R % P → threadRows R P t = R / P + 1) ∧
        (R % P ≤ t → threadRows R P t = R / P)) := by
  refine ⟨threadStart_zero R P, threadStart_succ R P,
    threadStart_total R P hP, ?_, ?_, ?_, ?_⟩
  · intro r
    constructor
    · intro hr
      exact threadCover_aux R P P r (by rw [threadStart_total R P hP]; exact hr)
    · rintro ⟨t, ht, h1, h2⟩
      have h3 : threadStart R P t + threadRows R P t = threadStart R P (t + 1) :=
        (threadStart_succ R P t).symm
      have h4 : threadStart R P (t + 1) ≤ threadStart R P P :=
        threadStart_mono R P (by omega)
      rw [threadStart_total R P hP] at h4
      omega
  · intro t u htu hu
    calc threadStart R P t + threadRows R P t
        = threadStart R P (t + 1) := (threadStart_succ R P t).symm
      _ ≤ threadStart R P u := threadStart_mono R P (by omega)
  · intro t ht u hu
    unfold threadRows
    generalize R / P = q
    generalize R % P = m
    by_cases h1 : t < m <;> by_cases h2 : u < m <;> simp [h1, h2] <;> omega
  · intro t ht
    unfold threadRows
    constructor
    · intro h
      rw [if_pos h]
    · intro h
      rw [if_neg (by omega)]
      exact Nat.add_zero _

/-- Witness for C3 at R = 5, P = 3: the ranges are [0,2), [2,4), [4,5). -/
theorem partition_scheme_correct_witness :
    threadStart 5 3 3 = 5 ∧ threadRows 5 3 0 = 2 ∧ threadRows 5 3 2 = 1 := by
  refine ⟨(partition_scheme_correct 5 3 (by decide)).2.2.1, ?_, ?_⟩
  · exact ((partition_scheme_correct 5 3 (by decide)).2.2.2.2.2.2 0
      (by decide)).1 (by decide)
  · exact ((partition_scheme_correct 5 3 (by decide)).2.2.2.2.2.2 2
      (by decide)).2 (by decide)

/-- Claim C5 evidence: the source reads `hardware_concurrency()` into
`num_threads` and divides by it with no adjustment; there is no fallback to
1.  At `num_threads = 0` the C++ expressions `rows / num_threads` and
`rows % num_threads` divide by zero (undefined behavior); in this total
embedding, where Nat division by zero yields 0, the worker loop runs zero
times and the call returns the zero matrix instead of the product, while
`num_threads = 1` (the value the specification says zero should fall back
to) returns the serial result. -/
theorem thread_pool_zero_threads_no_fallback :
    multiply_thread_pool wOne wOne 0
      = Except.ok (threadPoolCompute wOne wOne 0) ∧
    (threadPoolCompute wOne wOne 0).get 0 0 = 0 ∧
    multiply_serial wOne wOne = Except.ok (serialCompute wOne wOne) ∧
    (serialCompute wOne wOne).get 0 0 = 1 ∧
    multiply_thread_pool wOne wOne 1 = multiply_serial wOne wOne := by
  refine ⟨rfl, by decide, rfl, by decide, ?_⟩
  rw [multiply_thread_pool, multiply_serial,
    threadPoolCompute_eq wOne wOne 1 (by decide)]

/-- Claim C6: multiplying an R-by-0 matrix by a 0-by-C matrix succeeds (the
dimension check passes) and yields an R-by-C result that is zero
everywhere, for each of the three multipliers. -/
theorem zero_size_tolerance (A B : Matrix α) (P : Nat)
    (hA : A.cols = 0) (hB : B.rows = 0) (hP : 1 ≤ P) :
    multiply_serial A B = Except.ok (serialCompute A B) ∧
    multiply_async A B = multiply_serial A B ∧
    multiply_thread_pool A B P = multiply_serial A B ∧
    (serialCompute A B).rows = A.rows ∧
    (serialCompute A B).cols = B.cols ∧
    ∀ i j, (serialCompute A B).get i j = 0 := by
  have h : A.cols = B.rows := by rw [hA, hB]
  refine ⟨multiply_serial_ok A B h, rfl, ?_, serialCompute_rows A B,
    serialCompute_cols A B, ?_⟩
  · rw [multiply_thread_pool, multiply_serial, threadPoolCompute_eq A B P hP]
  · intro i j
    rw [serialCompute_get]
    by_cases hc : i < A.rows ∧ j < B.cols <;>
      simp [hc, entry_of_cols_zero A B hA]

/-- Witness for C6 on a 2-by-0 times 0-by-3 product. -/
theorem zero_size_tolerance_witness :
    multiply_serial wTwoZero wZeroThree
      = Except.ok (serialCompute wTwoZero wZeroThree) ∧
    (serialCompute wTwoZero wZeroThree).get 1 2 = 0 := by
  refine ⟨(zero_size_tolerance wTwoZero wZeroThree 2 rfl rfl (by decide)).1, ?_⟩
  exact (zero_size_tolerance wTwoZero wZeroThree 2 rfl rfl (by decide)).2.2.2.2.2 1 2

/-- Claim C7: when R is smaller than the worker count P, exactly P - R
workers receive zero rows (their loops run no iterations), the call
completes, and the thread-pool result still equals the serial result. -/
theorem degenerate_parallelism (A B : Matrix α) (P : Nat)
    (h : A.cols = B.rows) (hR : A.rows < P) :
    ((Finset.range P).filter (fun t => threadRows A.rows P t = 0)).card
      = P - A.rows ∧
    multiply_thread_pool A B P = multiply_serial A B := by
  have hP : 1 ≤ P := by omega
  constructor
  · have hq : A.rows / P = 0 := Nat.div_eq_of_lt hR
    have hm : A.rows % P = A.rows := Nat.mod_eq_of_lt hR
    have hiff : ∀ t, (threadRows A.rows P t = 0) ↔ (A.rows ≤ t) := by
      intro t
      rw [threadRows, hq, hm]
      by_cases ht : t < A.rows
      · rw [if_pos ht]
        omega
      · rw [if_neg ht]
        omega
    rw [Finset.card_filter]
    calc (∑ t in Finset.range P, if threadRows A.rows P t = 0 then 1 else 0)
        = ∑ t in Finset.range P, if A.rows ≤ t then 1 else 0 :=
          Finset.sum_congr rfl (fun t _ => by rw [if_congr (hiff t) rfl rfl])
      _ = P - min P A.rows := sum_ite_ge _ _
      _ = P - A.rows := by omega
  · rw [multiply_thread_pool, multiply_serial, threadPoolCompute_eq A B P hP]

/-- Witness for C7: one row split over three workers leaves two workers
with no rows. -/
theorem degenerate_parallelism_witness :
    ((Finset.range 3).filter (fun t => threadRows 1 3 t = 0)).card = 3 - 1 ∧
    multiply_thread_pool wOne wOne 3 = multiply_serial wOne wOne := by
  have h := degenerate_parallelism wOne wOne 3 rfl (by decide)
  exact ⟨h.1, h.2⟩

/-- Claim C8: multiplying any matrix A (R by K) by the K-by-K identity
matrix returns a matrix element-wise equal to A, identically for the
serial, task-based and thread-pool multipliers. -/
theorem identity_multiplication (A : Matrix α) (P : Nat) (hP : 1 ≤ P) :
    multiply_serial A (identity A.cols)
      = Except.ok (serialCompute A (identity A.cols)) ∧
    multiply_async A (identity A.cols)
      = multiply_serial A (identity A.cols) ∧
    multiply_thread_pool A (identity A.cols) P
      = multiply_serial A (identity A.cols) ∧
    ∀ i j, i < A.rows → j < A.cols →
      (serialCompute A (identity A.cols)).get i j = A.get i j := by
  refine ⟨multiply_serial_ok _ _ rfl, rfl, ?_, ?_⟩
  · rw [multiply_thread_pool, multiply_serial,
      threadPoolCompute_eq _ _ P hP]
  · intro i j hi hj
    rw [serialCompute_get, if_pos ⟨hi, hj⟩, entry]
    have hcong : ∀ k ∈ Finset.range A.cols,
        A.get i k * (identity (α := α) A.cols).get k j
          = if k = j then A.get i j else 0 := by
      intro k hk
      show A.get i k * (if k = j then 1 else 0) = _
      by_cases hkj : k = j
      · subst hkj
        simp
      · simp [hkj]
    rw [Finset.sum_congr rfl hcong, Finset.sum_ite_eq' (Finset.range A.cols) j]
    rw [if_pos (Finset.mem_range.mpr hj)]

/-- Witness for C8 on the concrete 2-by-2 matrix. -/
theorem identity_multiplication_witness :
    multiply_async wA (identity wA.cols) = multiply_serial wA (identity wA.cols) ∧
    multiply_thread_pool wA (identity wA.cols) 2
      = multiply_serial wA (identity wA.cols) ∧
    (serialCompute wA (identity wA.cols)).get 0 1 = wA.get 0 1 := by
  refine ⟨(identity_multiplication wA 2 (by decide)).2.1,
    (identity_multiplication wA 2 (by decide)).2.2.1, ?_⟩
  exact (identity_multiplication wA 2 (by decide)).2.2.2 0 1 (by decide) (by decide)

/-- Claim C9: every multiplication call leaves both operands unchanged.
In the state-level embedding, whose step functions rewrite only the
`result` component exactly as every write in the source targets
`result.data[i][j]`, any successful run of any of the three multipliers
ends in a state whose operand components are exactly the initial
operands (and a failed run produces no state at all). -/
theorem operands_read_only (A B : Matrix α) (P : Nat) :
    (∀ s, multiply_serialS A B = Except.ok s → s.A = A ∧ s.B = B) ∧
    (∀ s, multiply_asyncS A B = Except.ok s → s.A = A ∧ s.B = B) ∧
    (∀ s, multiply_thread_poolS A B P = Except.ok s → s.A = A ∧ s.B = B) := by
  refine ⟨?_, ?_, ?_⟩
  · intro s hs
    by_cases h : A.cols ≠ B.rows
    · rw [multiply_serialS, if_pos h] at hs
      cases hs
    · rw [multiply_serialS, if_neg h] at hs
      injection hs with h'
      exact h' ▸ serialRunS_ops A B
  · intro s hs
    by_cases h : A.cols ≠ B.rows
    · rw [multiply_asyncS, if_pos h] at hs
      cases hs
    · rw [multiply_asyncS, if_neg h] at hs
      injection hs with h'
      exact h' ▸ asyncRunS_ops A B
  · intro s hs
    by_cases h : A.cols ≠ B.rows
    · rw [multiply_thread_poolS, if_pos h] at hs
      cases hs
    · rw [multiply_thread_poolS, if_neg h] at hs
      injection hs with h'
      exact h' ▸ threadPoolRunS_ops A B P

/-- Witness for C9 on a concrete 1-by-1 multiplication. -/
theorem operands_read_only_witness :
    (serialRunS wOne wOne).A = wOne ∧ (serialRunS wOne wOne).B = wOne :=
  (operands_read_only wOne wOne 1).1 (serialRunS wOne wOne)
    (by rw [multiply_serialS, if_neg (by decide)])

/-- Claim C10: the serial multiplier is a function of the observable
content of its two operands alone.  Two invocations on operands with the
same dimensions and the same in-range elements (even if the backing stores
differ elsewhere, and whatever ambient state such as the randomness used by
randomInit) return element-wise identical results. -/
theorem serial_deterministic (A₁ B₁ A₂ B₂ : Matrix α)
    (hAr : A₁.rows = A₂.rows) (hAc : A₁.cols = A₂.cols)
    (hBr : B₁.rows = B₂.rows) (hBc : B₁.cols = B₂.cols)
    (hA : ∀ i k, i < A₁.rows → k < A₁.cols → A₁.get i k = A₂.get i k)
    (hB : ∀ k j, k < B₁.rows → j < B₁.cols → B₁.get k j = B₂.get k j)
    (h : A₁.cols = B₁.rows) :
    multiply_serial A₁ B₁ = Except.ok (serialCompute A₁ B₁) ∧
    multiply_serial A₂ B₂ = Except.ok (serialCompute A₂ B₂) ∧
    ∀ i j, i < A₁.rows → j < B₁.cols →
      (serialCompute A₁ B₁).get i j = (serialCompute A₂ B₂).get i j := by
  have h₂ : A₂.cols = B₂.rows := by rw [← hAc, ← hBr]; exact h
  refine ⟨multiply_serial_ok _ _ h, multiply_serial_ok _ _ h₂, ?_⟩
  intro i j hi hj
  rw [serialCompute_get, serialCompute_get, if_pos ⟨hi, hj⟩,
    if_pos ⟨hAr ▸ hi, hBc ▸ hj⟩]
  rw [entry, entry, ← hAc]
  refine Finset.sum_congr rfl ?_
  intro k hk
  have hk' : k < A₁.cols := Finset.mem_range.mp hk
  rw [hA i k hi hk', hB k j (h ▸ hk') hj]

/-- Witness for C10: two 1-by-1 operands holding the same element 2 but
with different backing stores outside the in-bounds region produce the
same product element. -/
theorem serial_deterministic_witness :
    (serialCompute wTwoA wTwoA).get 0 0 = (serialCompute wTwoB wTwoB).get 0 0 ∧
    wTwoA.data 0 1 ≠ wTwoB.data 0 1 := by
  constructor
  · refine (serial_deterministic wTwoA wTwoA wTwoB wTwoB rfl rfl rfl rfl
      ?_ ?_ rfl).2.2 0 0 (by decide) (by decide)
    · intro i k hik hkk
      have hi0 : i = 0 := Nat.lt_one_iff.mp hik
      have hk0 : k = 0 := Nat.lt_one_iff.mp hkk
      subst hi0
      subst hk0
      decide
    · intro k j hkk hjj
      have hk0 : k = 0 := Nat.lt_one_iff.mp hkk
      have hj0 : j = 0 := Nat.lt_one_iff.mp hjj
      subst hk0
      subst hj0
      decide
  · decide

end MatMul
